import Mathlib

/-!
Verification of the damage-formula compiler in
`src/module/system/damage/formula.ts`.

The TypeScript source is shallowly embedded below: every function of the
compiler (`createDamageFormula`, `instancesFromTypeMap`,
`createPartialFormulas`, `combinePartialTerms`, `sumExpression`,
`hasOperators`, `ensureValidFormulaHead`) is translated to an executable
Lean definition over a faithful model of its data.  JavaScript `Map`
objects are modelled by insertion-ordered association lists, JS string
templates by explicit string concatenation, and the two regular
expressions of the source by decidable character-list predicates.
Ambient game state (the `critRule` setting and the i18n localizer) is
passed in explicitly through a `GameEnv` record.
-/

/- ===================== Data model ===================== -/

/-- The two values of the pf2e `critRule` setting read at formula.ts:145. -/
inductive CritRule where
  | doubledice
  | doubledamage
deriving DecidableEq, Repr

/-- `DamageCategoryUnique` from `./types.ts`: the non-null damage categories
`"persistent" | "precision" | "splash"`; the absent category (`null`) is
modelled as `none : Option DamageCategoryUnique`. -/
inductive DamageCategoryUnique where
  | persistent
  | precision
  | splash
deriving DecidableEq, Repr

/-- A dice pool `\x7b number, faces \x7d` as stored in a damage partial
(formula.ts:311).  The count is an `Int`: `parseTermsFromSimpleFormula`
can produce negative counts in general. -/
structure DiceSpec where
  number : Int
  faces : Nat
deriving DecidableEq, Repr

/-- `DamagePartialTerm` (formula.ts:307-312). -/
structure DamagePartialTerm where
  modifier : Int
  dice : Option DiceSpec
deriving DecidableEq, Repr

/-- `DamagePartial` (formula.ts:314-320); the name carries a `Data` suffix
here.  It extends `DamagePartialTerm` with display/bookkeeping fields. -/
structure DamagePartialData extends DamagePartialTerm where
  label : String
  category : Option DamageCategoryUnique
  critical : Option Bool
  materials : List String
deriving DecidableEq, Repr

/-- The `base` member of `DamageFormulaData`.  `diceNumber = 0` models a
missing/zero dice count (both are falsy in JS), `dieSize = some f` models
the string `"d\x7bf\x7d"`, `none` a missing die size. -/
structure BaseDamage where
  diceNumber : Nat
  dieSize : Option Nat
  modifier : Int
  damageType : String
  category : Option DamageCategoryUnique
  materials : List String
deriving DecidableEq, Repr

/-- The fields of `DamageDicePF2e` read by the compiler. -/
structure DamageDicePF2e where
  label : String
  diceNumber : Int
  dieSize : Option Nat
  damageType : Option String
  category : Option DamageCategoryUnique
  critical : Option Bool
  enabled : Bool
deriving DecidableEq, Repr

/-- The fields of `ModifierPF2e` read by the compiler. -/
structure ModifierPF2e where
  label : String
  value : Int
  damageType : Option String
  damageCategory : Option DamageCategoryUnique
  critical : Option Bool
  enabled : Bool
deriving DecidableEq, Repr

/-- `DamageFormulaData` from `./types.ts` (the fields the compiler reads). -/
structure DamageFormulaData where
  base : BaseDamage
  dice : List DamageDicePF2e
  modifiers : List ModifierPF2e
deriving DecidableEq, Repr

/-- `AssembledFormula` (formula.ts:14-17). -/
structure AssembledFormula where
  formula : String
  breakdown : List String
deriving DecidableEq, Repr

/-- Ambient game state read by the compiler, passed explicitly:
`game.settings.get("pf2e", "critRule")` (formula.ts:145) and the i18n
lookups of formula.ts:179-184. -/
structure GameEnv where
  critRule : CritRule
  localizeDamageType : String → String
  persistentTooltip : String → String

/-- Modelled from the spec: the numeric outcome tiers of
`@system/degree-of-success.ts` (not under `src/`); spec section 2 and the
glossary list the four outcomes, and formula.ts:158 relies on critical
failure being the single falsy index. -/
def DEGREE_OF_SUCCESS_CRITICAL_FAILURE : Nat := 0

/-- Modelled from the spec: ordinary failure tier (see
`DEGREE_OF_SUCCESS_CRITICAL_FAILURE`). -/
def DEGREE_OF_SUCCESS_FAILURE : Nat := 1

/-- Modelled from the spec: success tier, the default degree of
`createDamageFormula` (formula.ts:29). -/
def DEGREE_OF_SUCCESS_SUCCESS : Nat := 2

/-- Modelled from the spec: critical-success tier. -/
def DEGREE_OF_SUCCESS_CRITICAL_SUCCESS : Nat := 3

/-- Modelled from the spec: `CRITICAL_INCLUSION.DOUBLE_ON_CRIT` from
`./values.ts` (not under `src/`).  Spec section 3: `criticalOnly` is
tri-state, `null` means always included and eligible for doubling. -/
def CRITICAL_INCLUSION_DOUBLE_ON_CRIT : Option Bool := none

/-- Modelled from the spec: `CRITICAL_INCLUSION.CRITICAL_ONLY`; `true`
means included only on a critical success. -/
def CRITICAL_INCLUSION_CRITICAL_ONLY : Option Bool := some true

/-- Modelled from the spec: `CRITICAL_INCLUSION.DONT_DOUBLE_ON_CRIT`;
`false` means included when not critical and never doubled. -/
def CRITICAL_INCLUSION_DONT_DOUBLE_ON_CRIT : Option Bool := some false

/- ===================== Dice/modifier combiner ===================== -/

/-- `hasOperators` (formula.ts:292-294): the regex `[-+*/]` tested against
`formula ?? ""`. -/
def hasOperators (formula : Option String) : Bool :=
  (formula.getD "").data.any fun c => c == '-' || c == '+' || c == '*' || c == '/'

/-- The dice specs admitted to grouping at formula.ts:220-222: partials
with a dice pool whose count is strictly positive, in input order. -/
def positiveDiceInput (terms : List DamagePartialTerm) : List DiceSpec :=
  (terms.filterMap (fun p => p.dice)).filter fun sp => 0 < sp.number

/-- The stable sort of formula.ts:222, `sort(sortBy((t) => -t.dice.faces))`:
JS `Array.prototype.sort` is stable, so it is the stable descending sort
by face count. -/
def sortByFacesDesc (l : List DiceSpec) : List DiceSpec :=
  l.insertionSort fun a b => b.faces ≤ a.faces

/-- First-occurrence deduplication of a key list: the key order produced
by the `groupBy` of `@util` (a JS `Map` keyed in insertion order). -/
def dedupKeys (l : List Nat) : List Nat :=
  l.foldl (fun acc k => if acc.contains k then acc else acc ++ [k]) []

/-- formula.ts:225-229: group the sorted dice by face count and sum the
counts within each group (`combinedDice`); only the `dice` component of
the spread `...terms[0]` is ever read afterwards, so the result is the
list of summed dice specs. -/
def combinedDiceOf (terms : List DamagePartialTerm) : List DiceSpec :=
  let sorted := sortByFacesDesc (positiveDiceInput terms)
  (dedupKeys (sorted.map fun sp => sp.faces)).map fun f =>
    ⟨((sorted.filter fun sp => sp.faces == f).map fun sp => sp.number).sum, f⟩

/-- formula.ts:230: `combinedDice.filter((t) => t.dice.number > 0)`. -/
def positiveDiceOf (terms : List DamagePartialTerm) : List DiceSpec :=
  (combinedDiceOf terms).filter fun sp => 0 < sp.number

/-- Rendering of one dice group (formula.ts:231-235). -/
def renderDiceTerm (doubleDice : Bool) (sp : DiceSpec) : String :=
  let number := if doubleDice then sp.number * 2 else sp.number
  let f := sp.faces
  if doubleDice then s!"({number}d{f}[doubled])" else s!"{number}d{f}"

/-- Final assembly of the combined term (formula.ts:238-241): join the
dice expression and the absolute constant, doubling the constant textually
in dice-doubling mode, with `" + "` or `" - "` by the constant sign. -/
def renderCombined (constant : Int) (positiveDice : List DiceSpec) (doubleDice : Bool) : String :=
  let diceStr := String.intercalate " + " (positiveDice.map (renderDiceTerm doubleDice))
  let cabs := constant.natAbs
  let constStr := if doubleDice then s!"2 * {cabs}" else s!"{cabs}"
  let parts := (if diceStr.isEmpty then [] else [diceStr])
    ++ (if constant == 0 then [] else [constStr])
  String.intercalate (if 0 < constant then " + " else " - ") parts

/-- `combinePartialTerms` (formula.ts:216-242). -/
def combinePartialTerms (terms : List DamagePartialTerm) (doubleDice : Bool) : String :=
  let constant := (terms.map fun p => p.modifier).sum
  renderCombined constant (positiveDiceOf terms) doubleDice

/- ===================== Category assembly ===================== -/

/-- The fixed category processing order of formula.ts:200 and 170. -/
def categoryOrderList : List (Option DamageCategoryUnique) :=
  [none, some .persistent, some .precision, some .splash]

/-- The string a category interpolates to in `[...]` tags. -/
def categoryFlavorName : Option DamageCategoryUnique → String
  | some .persistent => "persistent"
  | some .precision => "precision"
  | some .splash => "splash"
  | none => "null"

/-- The body of the `flatMap` of `createPartialFormulas`
(formula.ts:201-211) for one category: filter the category group by the
critical-inclusion set, combine, parenthesize operator-bearing
precision/splash terms, and tag precision/splash terms; an empty result
is dropped. -/
def categoryFragment (groups : Option DamageCategoryUnique → List DamagePartialData)
    (criticalInclusion : List (Option Bool)) (doubleDice : Bool)
    (category : Option DamageCategoryUnique) : Option String :=
  let requestedPartials := (groups category).filter fun p => criticalInclusion.contains p.critical
  let expression := combinePartialTerms (requestedPartials.map fun p => p.toDamagePartialTerm) doubleDice
  let isPrecOrSplash := category == some .precision || category == some .splash
  let term := if isPrecOrSplash && hasOperators (some expression)
    then "(" ++ expression ++ ")" else expression
  let flavored := if !term.isEmpty && isPrecOrSplash
    then term ++ "[" ++ categoryFlavorName category ++ "]" else term
  if flavored.isEmpty then none else some flavored

/-- `createPartialFormulas` (formula.ts:196-213). -/
def createPartialFormulas (groups : Option DamageCategoryUnique → List DamagePartialData)
    (criticalInclusion : List (Option Bool)) (doubleDice : Bool) : List String :=
  categoryOrderList.filterMap (categoryFragment groups criticalInclusion doubleDice)

/- ===================== Expression finalizer ===================== -/

/-- `sumExpression` (formula.ts:282-289).  The `|| null` of line 285 is
unreachable (after the early return at line 283 the join of the truthy
terms is nonempty), so the result is `some` of the joined, optionally
doubled expression. -/
def sumExpression (terms : List (Option String)) (double : Bool) : Option String :=
  if terms.all (fun t => (t.getD "").isEmpty) then none
  else
    let summed := String.intercalate " + "
      (terms.filterMap fun t => t.bind fun s => if s.isEmpty then none else some s)
    let enclosed := if double && hasOperators (some summed) then "(" ++ summed ++ ")" else summed
    some (if double then "2 * " ++ enclosed else enclosed)

/-- A character matched by `.` in a JS regex without the `s` flag:
anything but a line terminator. -/
def jsDotChar (c : Char) : Bool :=
  !(c == '\n' || c == '\r' || c.val == 0x2028 || c.val == 0x2029)

/-- The test `/^\(.*\)$/.test(formula)` of formula.ts:299: first character
`(`, last character `)`, no line terminator in between.  Balance of the
parentheses is not checked. -/
def isWrappedRegex (s : String) : Bool :=
  let l := s.data
  decide (2 ≤ l.length) && l.head? == some '(' && l.getLast? == some ')'
    && ((l.drop 1).dropLast.all jsDotChar)

/-- Nonempty all-digit character list (`\d+`). -/
def isDigitRun (l : List Char) : Bool :=
  !l.isEmpty && l.all fun c => c.isDigit

/-- The test `/^\d+(d\d+)?$/.test(formula)` of formula.ts:300: a bare
integer or a bare `NdF` token. -/
def isSimpleRegex (s : String) : Bool :=
  let pieces := s.data.span fun c => c.isDigit
  isDigitRun pieces.1
    && (pieces.2.isEmpty || (pieces.2.head? == some 'd' && isDigitRun (pieces.2.drop 1)))

/-- `ensureValidFormulaHead` (formula.ts:297-302). -/
def ensureValidFormulaHead (formula : Option String) : Option String :=
  match formula with
  | none => none
  | some f =>
    if f.isEmpty then none
    else if isWrappedRegex f || isSimpleRegex f then some f
    else some ("(" ++ f ++ ")")

/- ===================== Type partitioner ===================== -/

/-- The damage type map (formula.ts:305): a JS `Map` modelled as an
insertion-ordered association list. -/
abbrev DamageTypeMap := List (String × List DamagePartialData)

/-- `Map.prototype.get`. -/
def mapGet (m : DamageTypeMap) (k : String) : Option (List DamagePartialData) :=
  (m.find? fun p => p.1 == k).map fun p => p.2

/-- `Map.prototype.set`: update in place when the key exists, append
otherwise. -/
def mapSet (m : DamageTypeMap) (k : String) (v : List DamagePartialData) : DamageTypeMap :=
  if m.any (fun p => p.1 == k) then m.map fun p => if p.1 == k then (k, v) else p
  else m ++ [(k, v)]

/-- The fiber of the map at a key, `typeMap.get(t) ?? []`. -/
def fiberOf (m : DamageTypeMap) (t : String) : List DamagePartialData :=
  (mapGet m t).getD []

/-- The JS template rendering of a die-size value: `"d6"`, or the string
`"undefined"` when the field is unset (formula.ts:49 interpolates the raw
field). -/
def dieSizeText : Option Nat → String
  | some f => s!"d{f}"
  | none => "undefined"

/-- The base-term label (formula.ts:48-55). -/
def baseLabel (base : BaseDamage) : String :=
  if base.diceNumber == 0 then toString base.modifier
  else
    let n := base.diceNumber
    let ds := dieSizeText base.dieSize
    let diceSection := s!"{n}{ds}"
    if base.modifier == 0 then diceSection
    else
      let mabs := base.modifier.natAbs
      let op := if base.modifier < 0 then " - " else " + "
      diceSection ++ op ++ toString mabs

/-- The damage partial built from the base term (formula.ts:57-69). -/
def basePartialData (base : BaseDamage) : DamagePartialData :=
  { label := baseLabel base
    dice := match base.diceNumber, base.dieSize with
      | 0, _ => none
      | _, none => none
      | n, some f => some ⟨(n : Int), f⟩
    modifier := base.modifier
    category := base.category
    critical := none
    materials := base.materials }

/-- formula.ts:46-70: the map holding only the base term, present when the
base has dice or a nonzero flat modifier. -/
def baseTypeMap (base : BaseDamage) : DamageTypeMap :=
  if (base.diceNumber != 0 && base.dieSize.isSome) || base.modifier != 0 then
    mapSet [] base.damageType [basePartialData base]
  else []

/-- The resolution of one enabled dice entry (formula.ts:74-84): die size
falls back to the base die size, entries with no positive count or no
resolved size contribute nothing; returns the target damage type and the
partial pushed. -/
def diceEntryResolved (base : BaseDamage) (e : DamageDicePF2e) :
    Option (String × DamagePartialData) :=
  let dieSize := match e.dieSize with
    | some f => some f
    | none => base.dieSize
  match dieSize with
  | some faces =>
    if 0 < e.diceNumber then
      some (e.damageType.getD base.damageType,
        { label := e.label
          dice := some ⟨e.diceNumber, faces⟩
          modifier := 0
          category := e.category
          critical := e.critical
          materials := [] })
    else none
  | none => none

/-- `list.push(partial); typeMap.set(damageType, list)` with
`list = typeMap.get(damageType) ?? []`. -/
def pushPartial (m : DamageTypeMap) (t : String) (p : DamagePartialData) : DamageTypeMap :=
  mapSet m t (fiberOf m t ++ [p])

/-- One step of the dice loop (formula.ts:73-87). -/
def addDiceEntry (base : BaseDamage) (m : DamageTypeMap) (e : DamageDicePF2e) : DamageTypeMap :=
  match diceEntryResolved base e with
  | some (t, p) => pushPartial m t p
  | none => m

/-- The modifier label `"label +3"` / `"label -3"` (formula.ts:103). -/
def modifierLabel (m : ModifierPF2e) : String :=
  let v := m.value
  let lbl := m.label
  if m.value < 0 then s!"{lbl} {v}" else s!"{lbl} +{v}"

/-- formula.ts:92-97: enabled modifiers, with `damageType` defaulted to the
base damage type (the `??=` of line 95) and, on non-critical outcomes,
modifiers with `critical === true` dropped by `outcomeMatches`. -/
def admittedModifiers (d : DamageFormulaData) (critical : Bool) : List ModifierPF2e :=
  (d.modifiers.filter fun m => m.enabled).filterMap fun m0 =>
    let m := { m0 with damageType := some (m0.damageType.getD d.base.damageType) }
    if critical || m.critical != some true then some m else none

/-- The damage partial built from one admitted modifier (formula.ts:102-108). -/
def modifierPartialData (m : ModifierPF2e) : DamagePartialData :=
  { label := modifierLabel m
    dice := none
    modifier := m.value
    category := m.damageCategory
    critical := m.critical
    materials := [] }

/-- One step of the modifier loop (formula.ts:99-110). -/
def addModifierEntry (base : BaseDamage) (m : DamageTypeMap) (entry : ModifierPF2e) : DamageTypeMap :=
  pushPartial m (entry.damageType.getD base.damageType) (modifierPartialData entry)

/-- The full type map built at formula.ts:46-110: base term, then enabled
dice entries in order, then admitted modifiers in order. -/
def buildTypeMap (d : DamageFormulaData) (critical : Bool) : DamageTypeMap :=
  let m0 := baseTypeMap d.base
  let m1 := (d.dice.filter fun e => e.enabled).foldl (addDiceEntry d.base) m0
  (admittedModifiers d critical).foldl (addModifierEntry d.base) m1

/- ===================== Per-type instances ===================== -/

/-- The non-critical inclusion set (formula.ts:136-139). -/
def nonCritInclusion (degree : Nat) : List (Option Bool) :=
  if degree == DEGREE_OF_SUCCESS_CRITICAL_SUCCESS then [CRITICAL_INCLUSION_DOUBLE_ON_CRIT]
  else [CRITICAL_INCLUSION_DOUBLE_ON_CRIT, CRITICAL_INCLUSION_DONT_DOUBLE_ON_CRIT]

/-- The dice-doubling flag (formula.ts:142-145): critical success, the
inclusion set containing `null`, and the ambient `critRule` setting equal
to `"doubledice"`. -/
def doubleDiceFlag (env : GameEnv) (degree : Nat) : Bool :=
  degree == DEGREE_OF_SUCCESS_CRITICAL_SUCCESS
    && (nonCritInclusion degree).contains none
    && env.critRule == CritRule.doubledice

/-- The subtotal-doubling flag `double` (formula.ts:148). -/
def subtotalDoubleFlag (env : GameEnv) (degree : Nat) : Bool :=
  degree == DEGREE_OF_SUCCESS_CRITICAL_SUCCESS && !doubleDiceFlag env degree

/-- The `groupBy` of formula.ts:133 seen through `groups.get(c) ?? []`:
the category fiber of the partial list, in input order. -/
def groupsOf (partials : List DamagePartialData) :
    Option DamageCategoryUnique → List DamagePartialData :=
  fun c => partials.filter fun p => p.category == c

/-- The non-critical sub-expression (formula.ts:135-150). -/
def nonCriticalDamageOf (env : GameEnv) (degree : Nat)
    (groups : Option DamageCategoryUnique → List DamagePartialData) : Option String :=
  sumExpression
    ((createPartialFormulas groups (nonCritInclusion degree) (doubleDiceFlag env degree)).map some)
    (subtotalDoubleFlag env degree)

/-- The critical-only sub-expression (formula.ts:152-156). -/
def criticalDamageOf (degree : Nat)
    (groups : Option DamageCategoryUnique → List DamagePartialData) : Option String :=
  if degree == DEGREE_OF_SUCCESS_CRITICAL_SUCCESS then
    sumExpression
      ((createPartialFormulas groups
        [CRITICAL_INCLUSION_CRITICAL_ONLY, CRITICAL_INCLUSION_DONT_DOUBLE_ON_CRIT] false).map some)
      false
  else none

/-- formula.ts:170-171: the partials flattened in the fixed category
order for the breakdown. -/
def flattenedDamageOf (groups : Option DamageCategoryUnique → List DamagePartialData) :
    List DamagePartialData :=
  (categoryOrderList.map groups).flatten

/-- A character of the JS `\s` class (the common members; labels in this
codebase only ever use the ASCII ones). -/
def jsWhitespaceChar (c : Char) : Bool :=
  c == ' ' || c == '\t' || c == '\n' || c == '\r' || c == '\x0b' || c == '\x0c'
    || c.val == 0xa0 || c.val == 0xfeff || (0x2000 ≤ c.val && c.val ≤ 0x200a)
    || c.val == 0x2028 || c.val == 0x2029 || c.val == 0x202f || c.val == 0x205f
    || c.val == 0x3000 || c.val == 0x1680

/-- `label.replace(/^\s+\+/, "")` (formula.ts:186): strip one leading run
of whitespace followed by `+`, if present. -/
def stripLeadingPlusWS (s : String) : String :=
  let ws := s.data.takeWhile jsWhitespaceChar
  if ws.isEmpty then s
  else match s.data.dropWhile jsWhitespaceChar with
    | '+' :: tail => String.mk tail
    | _ => s

/-- The breakdown lines of one damage-type instance (formula.ts:169-189). -/
def breakdownOf (env : GameEnv) (degree : Nat) (damageType : String)
    (groups : Option DamageCategoryUnique → List DamagePartialData) : List String :=
  let flattenedDamage := flattenedDamageOf groups
  let nonCrit := flattenedDamage.filter fun d => d.critical != some true
  let breakdownDamage := if degree == DEGREE_OF_SUCCESS_CRITICAL_SUCCESS
    then nonCrit ++ flattenedDamage.filter fun d => d.critical == some true
    else nonCrit
  match breakdownDamage with
  | [] => []
  | first :: rest =>
    let damageTypeLabel := if first.category == some .persistent
      then env.persistentTooltip (env.localizeDamageType damageType)
      else env.localizeDamageType damageType
    (stripLeadingPlusWS first.label ++ " " ++ damageTypeLabel) :: rest.map fun d => d.label

/-- formula.ts:191: `enclosed && flavor ? enclosed + flavor : enclosed`. -/
def attachFlavor (enclosed : Option String) (flavor : String) : Option String :=
  match enclosed with
  | some e => if !e.isEmpty && !flavor.isEmpty then some (e ++ flavor) else some e
  | none => none

/-- formula.ts:192: `formula ? \x7b formula, breakdown \x7d : []`. -/
def finalizeInstance (formulaOpt : Option String) (breakdown : List String) :
    Option AssembledFormula :=
  match formulaOpt with
  | some f => if f.isEmpty then none else some ⟨f, breakdown⟩
  | none => none

/-- The body of the `flatMap` of `instancesFromTypeMap` (formula.ts:127-193)
for one `(damageType, typePartials)` entry of the map. -/
def instanceForType (env : GameEnv) (degree : Nat) (persistent : Bool)
    (damageType : String) (typePartials : List DamagePartialData) : Option AssembledFormula :=
  let partials := typePartials.filter fun p => (p.category == some .persistent) == persistent
  if partials.isEmpty then none
  else
    let groups := groupsOf partials
    let nonCriticalDamage := nonCriticalDamageOf env degree groups
    let criticalDamage := criticalDamageOf degree groups
    let summedDamage := sumExpression
      (if degree != 0 then [nonCriticalDamage, criticalDamage] else [nonCriticalDamage]) false
    let enclosed := ensureValidFormulaHead summedDamage
    let typeFlavor : List String := if damageType == "untyped" && !persistent then [] else [damageType]
    let persistentFlavor : List String := if persistent then ["persistent"] else []
    let materialFlavor := (typePartials.map fun p => p.materials).flatten
    let allFlavor := String.intercalate "," (typeFlavor ++ persistentFlavor ++ materialFlavor)
    let flavor := if !allFlavor.isEmpty then "[" ++ allFlavor ++ "]" else ""
    finalizeInstance (attachFlavor enclosed flavor) (breakdownOf env degree damageType groups)

/-- `instancesFromTypeMap` (formula.ts:123-194). -/
def instancesFromTypeMap (env : GameEnv) (typeMap : DamageTypeMap) (degree : Nat)
    (persistent : Bool) : List AssembledFormula :=
  typeMap.filterMap fun e => instanceForType env degree persistent e.1 e.2

/- ===================== Top level ===================== -/

/-- The failure-outcome gate (formula.ts:38-39): keep only splash dice and
splash modifiers; the base term is untouched. -/
def applySplashGate (d : DamageFormulaData) : DamageFormulaData :=
  { d with
    dice := d.dice.filter fun e => e.category == some .splash
    modifiers := d.modifiers.filter fun m => m.damageCategory == some .splash }

/-- `createDamageFormula` (formula.ts:27-120).  The `deepClone` of line 31
gives the compiler its own copy of the definition; in this value-semantics
embedding the input is never mutated, which is exactly what the clone
guarantees to the caller. -/
def createDamageFormula (env : GameEnv) (damage : DamageFormulaData) (degree : Nat) :
    Option AssembledFormula :=
  if degree == DEGREE_OF_SUCCESS_CRITICAL_FAILURE then none
  else
    let damage := if degree == DEGREE_OF_SUCCESS_FAILURE then applySplashGate damage else damage
    let critical := degree == DEGREE_OF_SUCCESS_CRITICAL_SUCCESS
    let typeMap := buildTypeMap damage critical
    let instances := instancesFromTypeMap env typeMap degree false
      ++ instancesFromTypeMap env typeMap degree true
    let commaSeparated := String.intercalate "," (instances.map fun i => i.formula)
    some ⟨"\x7b" ++ commaSeparated ++ "\x7d", (instances.map fun i => i.breakdown).flatten⟩

/-- The call/return behaviour of `createDamageFormula` as seen by the
caller: the result together with the caller's definition after the call.
Because of the `deepClone` at formula.ts:31 every internal mutation (such
as the `damageType ??=` at line 95) hits the clone, so the caller's
definition comes back unchanged. -/
def createDamageFormulaRun (env : GameEnv) (damage : DamageFormulaData) (degree : Nat) :
    Option AssembledFormula × DamageFormulaData :=
  (createDamageFormula env damage degree, damage)

/-- The overload `createDamageFormula(damage)` (formula.ts:24): the degree
parameter defaults to `DEGREE_OF_SUCCESS.SUCCESS` (formula.ts:29). -/
def createDamageFormulaDefault (env : GameEnv) (damage : DamageFormulaData) :
    Option AssembledFormula :=
  createDamageFormula env damage DEGREE_OF_SUCCESS_SUCCESS

/- ===================== Spec-side comparison definitions ===================== -/

/-- Helper for `isFullyParenthesizedSpec`: scanning the characters after
an opening parenthesis at nesting depth `d`, check that the depth first
returns to zero exactly at the last character. -/
def closesOnlyAtEnd : List Char → Nat → Bool
  | [], _ => false
  | [c], d => c == ')' && d == 1
  | c :: rest, d =>
    if c == '(' then closesOnlyAtEnd rest (d + 1)
    else if c == ')' then decide (1 < d) && closesOnlyAtEnd rest (d - 1)
    else closesOnlyAtEnd rest d

/-- Follows the spec words for claim C5: an expression that is "already
fully parenthesized (a single balanced outer group)" — it starts with
`(`, ends with `)`, and those two parentheses match each other. -/
def isFullyParenthesizedSpec (s : String) : Bool :=
  match s.data with
  | '(' :: rest => !rest.isEmpty && closesOnlyAtEnd rest 1
  | _ => false

/-- Follows the spec words for claim C4 (spec section 4.5): group ALL dice
partials by face count, sum the counts within a face group (so negative
counts cancel positive ones), and discard any group whose summed count is
not positive; rendering is shared with the code model. -/
def combinePartialTermsSpec (terms : List DamagePartialTerm) (doubleDice : Bool) : String :=
  let constant := (terms.map fun p => p.modifier).sum
  let allDice := terms.filterMap fun p => p.dice
  let sorted := sortByFacesDesc allDice
  let combined := (dedupKeys (sorted.map fun sp => sp.faces)).map fun f =>
    (⟨((sorted.filter fun sp => sp.faces == f).map fun sp => sp.number).sum, f⟩ : DiceSpec)
  renderCombined constant (combined.filter fun sp => 0 < sp.number) doubleDice

/-- Splitting a character list at commas (an executable model of
splitting a string on the separator `","`). -/
def splitOnComma : List Char → List (List Char)
  | [] => [[]]
  | c :: rest =>
    let r := splitOnComma rest
    if c == ',' then [] :: r
    else match r with
      | [] => [[c]]
      | h :: t => (c :: h) :: t

/-- Follows the spec words for claim C8: the pooled formula grammar
`"\x7b" term ("," term)* "\x7d"` requires at least one term between the
braces and every comma-separated term nonempty. -/
def specPooledHasTerm (s : String) : Bool :=
  let l := s.data
  l.head? == some '\x7b' && l.getLast? == some '\x7d'
    && (let inner : List Char := (l.drop 1).dropLast
        !inner.isEmpty && (splitOnComma inner).all fun t => !t.isEmpty)

/- ===================== Concrete fixtures ===================== -/

/-- An environment with the `doubledice` critical rule and identity
localization. -/
def envDD : GameEnv := ⟨CritRule.doubledice, id, id⟩

/-- An environment with the default `doubledamage` critical rule and
identity localization. -/
def env0 : GameEnv := ⟨CritRule.doubledamage, id, id⟩

/-- Base 2d6 fire plus an always-active extra 1d4 fire dice entry. -/
def dC5 : DamageFormulaData :=
  ⟨⟨2, some 6, 0, "fire", none, []⟩,
   [⟨"Extra", 1, some 4, none, none, none, true⟩], []⟩

/-- The empty damage definition: no base dice, no base modifier, no
entries. -/
def dEmpty : DamageFormulaData := ⟨⟨0, none, 0, "untyped", none, []⟩, [], []⟩

/-- Base 1d6 fire with one critical-only dice entry and one critical-only
modifier, both enabled. -/
def dC6 : DamageFormulaData :=
  ⟨⟨1, some 6, 0, "fire", none, []⟩,
   [⟨"Deadly", 1, some 8, none, none, some true, true⟩],
   [⟨"CritBonus", 3, none, none, some true, true⟩]⟩

/-- Base 1d6 fire with no entries. -/
def dW8 : DamageFormulaData := ⟨⟨1, some 6, 0, "fire", none, []⟩, [], []⟩

/-- Two dice partial terms of the same die size with opposite sign:
2d6 and -1d6. -/
def cancelTermsC4 : List DamagePartialTerm := [⟨0, some ⟨2, 6⟩⟩, ⟨0, some ⟨-1, 6⟩⟩]

/- ===================== Helper lemmas ===================== -/

lemma applySplashGate_idem (d : DamageFormulaData) :
    applySplashGate (applySplashGate d) = applySplashGate d := by
  simp [applySplashGate, List.filter_filter]

/- ===================== Claims ===================== -/

/-- Claim C1: compiling at the ordinary-failure outcome is the same as
compiling the definition whose dice and modifier lists are filtered down
to the splash-category entries, while the base term is kept unfiltered;
hence the resulting formula derives solely from splash dice/modifiers
plus the base term. -/
theorem claim_C1 (env : GameEnv) (d : DamageFormulaData) :
    createDamageFormula env d DEGREE_OF_SUCCESS_FAILURE
        = createDamageFormula env (applySplashGate d) DEGREE_OF_SUCCESS_FAILURE
      ∧ (applySplashGate d).base = d.base
      ∧ (applySplashGate d).dice = d.dice.filter (fun e => e.category == some .splash)
      ∧ (applySplashGate d).modifiers
          = d.modifiers.filter (fun m => m.damageCategory == some .splash) := by
  refine ⟨?_, rfl, rfl, rfl⟩
  simp only [createDamageFormula, DEGREE_OF_SUCCESS_FAILURE, DEGREE_OF_SUCCESS_CRITICAL_FAILURE]
  norm_num [applySplashGate_idem]

/-- Claim C2: compiling returns no formula exactly at the critical-failure
outcome; every other degree produces a result. -/
theorem claim_C2 (env : GameEnv) (d : DamageFormulaData) (degree : Nat) :
    createDamageFormula env d degree = none ↔ degree = DEGREE_OF_SUCCESS_CRITICAL_FAILURE := by
  by_cases h : degree = DEGREE_OF_SUCCESS_CRITICAL_FAILURE <;>
    simp [createDamageFormula, DEGREE_OF_SUCCESS_CRITICAL_FAILURE, h] at *

/-- Claim C3: on a critical success exactly one of the two doubling
mechanisms applies to the non-critical sub-expression — either the dice
are doubled inside the combiner (dice-doubling mode) with no outer
doubling, or the whole sub-expression is wrapped as `2 * (...)` with
un-doubled dice — never both. -/
theorem claim_C3 (env : GameEnv) (degree : Nat)
    (groups : Option DamageCategoryUnique → List DamagePartialData) :
    (¬(doubleDiceFlag env degree = true ∧ subtotalDoubleFlag env degree = true))
    ∧ (degree = DEGREE_OF_SUCCESS_CRITICAL_SUCCESS →
        subtotalDoubleFlag env degree = !doubleDiceFlag env degree)
    ∧ (doubleDiceFlag env degree = true →
        nonCriticalDamageOf env degree groups
          = sumExpression ((createPartialFormulas groups (nonCritInclusion degree) true).map some)
              false)
    ∧ (subtotalDoubleFlag env degree = true →
        nonCriticalDamageOf env degree groups
          = sumExpression ((createPartialFormulas groups (nonCritInclusion degree) false).map some)
              true)
    ∧ (subtotalDoubleFlag env degree = true →
        nonCriticalDamageOf env degree groups = none
          ∨ ∃ e, nonCriticalDamageOf env degree groups = some ("2 * " ++ e)) := by
  refine ⟨fun h => ?_, fun h => ?_, fun h => ?_, fun h => ?_, fun h => ?_⟩
  · simp only [subtotalDoubleFlag, h.1] at h
    simp at h
  · simp [subtotalDoubleFlag, h, DEGREE_OF_SUCCESS_CRITICAL_SUCCESS]
  · have hs : subtotalDoubleFlag env degree = false := by
      simp [subtotalDoubleFlag, h]
    rw [nonCriticalDamageOf, h, hs]
  · have hd : doubleDiceFlag env degree = false := by
      simp [subtotalDoubleFlag] at h
      exact h.2
    rw [nonCriticalDamageOf, hd, h]
  · have hd : doubleDiceFlag env degree = false := by
      simp [subtotalDoubleFlag] at h
      exact h.2
    rw [nonCriticalDamageOf, hd, h, sumExpression]
    split
    · exact Or.inl rfl
    · exact Or.inr ⟨_, rfl⟩

/-- Witness for claim C3: with the `doubledice` rule at critical success
the dice-doubling branch is taken and the outer sum is not doubled. -/
theorem claim_C3_witness :
    nonCriticalDamageOf envDD DEGREE_OF_SUCCESS_CRITICAL_SUCCESS (groupsOf [])
      = sumExpression
          ((createPartialFormulas (groupsOf []) (nonCritInclusion DEGREE_OF_SUCCESS_CRITICAL_SUCCESS)
            true).map some) false :=
  (claim_C3 envDD DEGREE_OF_SUCCESS_CRITICAL_SUCCESS (groupsOf [])).2.2.1 (by decide)

/-- Claim C9: compiling the same definition with the same outcome twice
yields byte-identical results; the call leaves the caller's definition
untouched (the compiler works on its own deep copy), so a second call
starting from the post-call state equals the first. -/
theorem claim_C9 (env : GameEnv) (d : DamageFormulaData) (degree : Nat) :
    createDamageFormulaRun env ((createDamageFormulaRun env d degree).2) degree
      = createDamageFormulaRun env d degree := rfl

/-- Claim C10: the no-degree overload compiles at the success outcome and
never returns `none`. -/
theorem claim_C10 (env : GameEnv) (d : DamageFormulaData) :
    createDamageFormulaDefault env d = createDamageFormula env d DEGREE_OF_SUCCESS_SUCCESS
      ∧ (createDamageFormulaDefault env d).isSome = true := by
  refine ⟨rfl, ?_⟩
  simp [createDamageFormulaDefault, createDamageFormula, DEGREE_OF_SUCCESS_SUCCESS,
    DEGREE_OF_SUCCESS_CRITICAL_FAILURE]

lemma isEmpty_false_of_ne (p : String) (h : p ≠ "") : p.isEmpty = false := by
  cases hh : p.isEmpty with
  | false => rfl
  | true => exact absurd ((String.isEmpty_iff _).mp hh) h

lemma filterMap_map_some (parts : List String) (h : ∀ s ∈ parts, s ≠ "") :
    List.filterMap (fun t => t.bind fun s => if s.isEmpty = true then none else some s)
      (parts.map some) = parts := by
  induction parts with
  | nil => rfl
  | cons p rest ih =>
    have hp := isEmpty_false_of_ne p (h p (by simp))
    simp [List.filterMap_cons, hp, ih fun s hs => h s (by simp [hs])]

lemma sumExpression_map_some (parts : List String) (hne : parts ≠ [])
    (h : ∀ s ∈ parts, s ≠ "") :
    sumExpression (parts.map some) false = some (String.intercalate " + " parts) := by
  obtain ⟨p, rest, rfl⟩ := List.exists_cons_of_ne_nil hne
  have hp := isEmpty_false_of_ne p (h p (by simp))
  rw [sumExpression, if_neg (by simp [hp])]
  rw [filterMap_map_some _ h]
  simp

/-- Claim C7: the per-type category fragments are produced in the fixed
order none, persistent, precision, splash (and the flattened breakdown
partial list follows the same order); the fragment list depends on the
input partials only through their category fibers, not their input order
across categories; present fragments are joined with " + ". -/
theorem claim_C7 (criticalInclusion : List (Option Bool)) (doubleDice : Bool)
    (groups : Option DamageCategoryUnique → List DamagePartialData) :
    createPartialFormulas groups criticalInclusion doubleDice
        = (categoryFragment groups criticalInclusion doubleDice none).toList
          ++ (categoryFragment groups criticalInclusion doubleDice (some .persistent)).toList
          ++ (categoryFragment groups criticalInclusion doubleDice (some .precision)).toList
          ++ (categoryFragment groups criticalInclusion doubleDice (some .splash)).toList
      ∧ flattenedDamageOf groups
          = groups none ++ groups (some .persistent) ++ groups (some .precision)
            ++ groups (some .splash)
      ∧ (∀ l l' : List DamagePartialData,
          (∀ c, groupsOf l c = groupsOf l' c) →
            createPartialFormulas (groupsOf l) criticalInclusion doubleDice
              = createPartialFormulas (groupsOf l') criticalInclusion doubleDice)
      ∧ (∀ parts : List String, parts ≠ [] → (∀ s ∈ parts, s ≠ "") →
          sumExpression (parts.map some) false = some (String.intercalate " + " parts)) := by
  refine ⟨?_, ?_, fun l l' h => ?_, fun parts h1 h2 => sumExpression_map_some parts h1 h2⟩
  · cases h0 : categoryFragment groups criticalInclusion doubleDice none <;>
    cases h1 : categoryFragment groups criticalInclusion doubleDice (some .persistent) <;>
    cases h2 : categoryFragment groups criticalInclusion doubleDice (some .precision) <;>
    cases h3 : categoryFragment groups criticalInclusion doubleDice (some .splash) <;>
      simp [createPartialFormulas, categoryOrderList, List.filterMap_cons, h0, h1, h2, h3]
  · simp [flattenedDamageOf, categoryOrderList]
  · have : groupsOf l = groupsOf l' := funext h
    rw [this]

/-- Witness for claim C7: two concrete nonempty fragments are joined with
" + " by the expression summer. -/
theorem claim_C7_witness :
    sumExpression (["1d6", "2"].map some) false = some "1d6 + 2" :=
  (claim_C7 [] false (groupsOf [])).2.2.2 ["1d6", "2"] (by decide) (by decide)

/-- Mapping a partial term to itself when its dice count is positive and
to a dice-less term otherwise (the claim-C4 comparison: the combiner
treats these two lists identically, i.e. non-positive dice pools are
simply ignored rather than cancelled against positive ones). -/
def stripNonPositiveDice (t : DamagePartialTerm) : DamagePartialTerm :=
  match t.dice with
  | some sp => if 0 < sp.number then t else { t with dice := none }
  | none => t

lemma positiveDiceInput_map_strip (terms : List DamagePartialTerm) :
    positiveDiceInput (terms.map stripNonPositiveDice) = positiveDiceInput terms := by
  induction terms with
  | nil => rfl
  | cons t rest ih =>
    cases hd : t.dice with
    | none =>
      have hs : stripNonPositiveDice t = t := by simp [stripNonPositiveDice, hd]
      simp only [positiveDiceInput, List.map_cons, List.filterMap_cons, hs, hd] at *
      exact ih
    | some sp =>
      by_cases hpos : 0 < sp.number
      · have hs : stripNonPositiveDice t = t := by simp [stripNonPositiveDice, hd, hpos]
        simp only [positiveDiceInput, List.map_cons, List.filterMap_cons, hs, hd] at *
        simp only [List.filter_cons, decide_eq_true hpos]
        rw [ih]
      · have hs : stripNonPositiveDice t = { t with dice := none } := by
          simp [stripNonPositiveDice, hd, hpos]
        simp only [positiveDiceInput, List.map_cons, List.filterMap_cons, hs, hd] at *
        have hneg : decide (0 < sp.number) = false := by simpa using hpos
        simp only [List.filter_cons, hneg]
        simpa using ih

lemma modifier_strip (t : DamagePartialTerm) :
    (stripNonPositiveDice t).modifier = t.modifier := by
  cases h : t.dice <;> simp [stripNonPositiveDice, h]
  split <;> rfl

lemma combinedDiceOf_map_strip (terms : List DamagePartialTerm) :
    combinedDiceOf (terms.map stripNonPositiveDice) = combinedDiceOf terms := by
  rw [combinedDiceOf, combinedDiceOf, positiveDiceInput_map_strip]

lemma sortByFacesDesc_perm (l : List DiceSpec) : List.Perm (sortByFacesDesc l) l :=
  List.perm_insertionSort _ l

/-- Claim C4 (amended): only dice partials with positive count take part
in grouping — non-positive dice pools are ignored outright, so a negative
count never cancels a positive one of the same die size; each combined
group sums the positive-count partials of its face, and no group with a
non-positive summed count survives to rendering. -/
theorem claim_C4 (terms : List DamagePartialTerm) (doubleDice : Bool) :
    combinePartialTerms terms doubleDice
        = combinePartialTerms (terms.map stripNonPositiveDice) doubleDice
      ∧ (∀ sp ∈ positiveDiceOf terms, 0 < sp.number)
      ∧ (∀ sp ∈ combinedDiceOf terms,
          sp.number
            = (((positiveDiceInput terms).filter fun q => q.faces == sp.faces).map
                fun q => q.number).sum) := by
  refine ⟨?_, fun sp h => ?_, fun sp h => ?_⟩
  · rw [combinePartialTerms, combinePartialTerms, positiveDiceOf, positiveDiceOf,
      combinedDiceOf_map_strip]
    have : ((terms.map stripNonPositiveDice).map fun p => p.modifier)
        = terms.map fun p => p.modifier := by
      rw [List.map_map]
      exact List.map_congr_left fun t _ => modifier_strip t
    rw [this]
  · exact of_decide_eq_true (List.mem_filter.mp h).2
  · simp only [combinedDiceOf, List.mem_map] at h
    obtain ⟨f, hf, rfl⟩ := h
    have hperm := (sortByFacesDesc_perm (positiveDiceInput terms)).filter
      (fun q => q.faces == f)
    simpa using (hperm.map fun q => q.number).sum_eq

/-- Counterexample for claim C4 as stated: with partials 2d6 and -1d6 the
code renders "2d6" — the negative partial is discarded by the positivity
filter before grouping — while grouping-then-summing as the claim
describes (the spec-following combiner) would render "1d6". -/
theorem claim_C4_counterexample :
    combinePartialTerms cancelTermsC4 false = "2d6"
      ∧ combinePartialTermsSpec cancelTermsC4 false = "1d6"
      ∧ ("2d6" : String) ≠ "1d6" :=
  ⟨rfl, rfl, by decide⟩

/-- Witness for claim C4: at the concrete (2d6, -1d6) input the surviving
combined group is the positive 2d6 group, whose count is the sum of the
positive-count d6 partials only. -/
theorem claim_C4_witness :
    0 < (⟨(2 : Int), 6⟩ : DiceSpec).number
      ∧ (⟨(2 : Int), 6⟩ : DiceSpec).number
          = (((positiveDiceInput cancelTermsC4).filter
              fun q => q.faces == (⟨(2 : Int), 6⟩ : DiceSpec).faces).map
                fun q => q.number).sum :=
  ⟨(claim_C4 cancelTermsC4 false).2.1 ⟨2, 6⟩ (by decide),
   (claim_C4 cancelTermsC4 false).2.2 ⟨2, 6⟩ (by decide)⟩

/-- Claim C5 (amended): before a flavor tag is attached the summed
expression is either left unchanged or wrapped in one pair of
parentheses, and it is left unchanged exactly when it already starts with
a parenthesis and ends with one (with no line terminator in between,
balance not checked) or is a bare integer / NdF token. -/
theorem claim_C5 (s : String) (h : s ≠ "") :
    (ensureValidFormulaHead (some s) = some s
        ∨ ensureValidFormulaHead (some s) = some ("(" ++ s ++ ")"))
      ∧ (ensureValidFormulaHead (some s) = some s
          ↔ (isWrappedRegex s = true ∨ isSimpleRegex s = true)) := by
  have hne := isEmpty_false_of_ne s h
  have hwrap : ("(" ++ s ++ ")") ≠ s := by
    intro heq
    have hlen := congrArg String.length heq
    have h1 : "(".length = 1 := rfl
    have h2 : ")".length = 1 := rfl
    simp [String.length_append, h1, h2] at hlen
    omega
  by_cases hw : (isWrappedRegex s || isSimpleRegex s) = true
  · have he : ensureValidFormulaHead (some s) = some s := by
      simp [ensureValidFormulaHead, hne, hw]
    refine ⟨Or.inl he, ?_⟩
    rw [he]
    simp only [Bool.or_eq_true] at hw
    exact ⟨fun _ => hw, fun _ => rfl⟩
  · have hor : (isWrappedRegex s || isSimpleRegex s) = false := by simpa using hw
    have ha : isWrappedRegex s = false ∧ isSimpleRegex s = false := by
      simpa using hor
    have he : ensureValidFormulaHead (some s) = some ("(" ++ s ++ ")") := by
      simp [ensureValidFormulaHead, hne, hor]
    refine ⟨Or.inr he, ?_⟩
    rw [he]
    constructor
    · intro heq
      exact absurd (Option.some.inj heq) hwrap
    · intro hcon
      rcases hcon with hc | hc
      · exact absurd hc (by simp [ha.1])
      · exact absurd hc (by simp [ha.2])

/-- The non-balanced but unwrapped expression reached on a critical
success with the dice-doubling rule. -/
def sC5 : String := "(4d6[doubled]) + (2d4[doubled])"

/-- Counterexample for claim C5 as stated: the summed expression sC5 is
not a single balanced outer group and not a bare token, yet the head
validator leaves it unwrapped (its regex only looks at the first and last
characters), and the full compiler then attaches the type flavor to it,
binding the tag to only the last parenthesized group. -/
theorem claim_C5_counterexample :
    isFullyParenthesizedSpec sC5 = false
      ∧ isSimpleRegex sC5 = false
      ∧ ensureValidFormulaHead (some sC5) = some sC5
      ∧ (createDamageFormula envDD dC5 DEGREE_OF_SUCCESS_CRITICAL_SUCCESS).map
          (fun a => a.formula)
        = some ("\x7b" ++ sC5 ++ "[fire]\x7d") :=
  ⟨by decide, by decide, by decide, by decide⟩

/-- Witness for claim C5: a concrete operator-bearing unparenthesized
expression is wrapped, and the unchanged-result condition is the
first-and-last-character regex or the bare-token regex. -/
theorem claim_C5_witness :
    ("2d6 + 3" ≠ "")
      ∧ (ensureValidFormulaHead (some "2d6 + 3") = some "2d6 + 3"
          ∨ ensureValidFormulaHead (some "2d6 + 3") = some ("(" ++ "2d6 + 3" ++ ")"))
      ∧ (ensureValidFormulaHead (some "2d6 + 3") = some "2d6 + 3"
          ↔ (isWrappedRegex "2d6 + 3" = true ∨ isSimpleRegex "2d6 + 3" = true)) :=
  ⟨by decide, claim_C5 "2d6 + 3" (by decide)⟩

/-- The partials a list of dice entries contributes to damage type `t`
(each enabled entry resolved by `diceEntryResolved`, kept when it targets
`t`). -/
def diceContribution (base : BaseDamage) (es : List DamageDicePF2e) (t : String) :
    List DamagePartialData :=
  es.filterMap fun e => match diceEntryResolved base e with
    | some (t2, p) => if t2 == t then some p else none
    | none => none

/-- The partials a list of modifiers contributes to damage type `t`. -/
def modifierContribution (base : BaseDamage) (ms : List ModifierPF2e) (t : String) :
    List DamagePartialData :=
  ms.filterMap fun entry =>
    if (entry.damageType.getD base.damageType) == t then some (modifierPartialData entry) else none

/-- The partial the base term contributes to damage type `t`. -/
def baseContribution (base : BaseDamage) (t : String) : List DamagePartialData :=
  if ((base.diceNumber != 0 && base.dieSize.isSome) || base.modifier != 0)
      && base.damageType == t
    then [basePartialData base] else []

lemma find?_mapSet_same (m : DamageTypeMap) (k : String) (v : List DamagePartialData)
    (hany : m.any (fun p => p.1 == k) = true) :
    List.find? (fun p => p.1 == k) (m.map fun p => if p.1 == k then (k, v) else p)
      = some (k, v) := by
  induction m with
  | nil => simp at hany
  | cons p m' ih =>
    rw [List.map_cons]
    by_cases hp : (p.1 == k) = true
    · rw [if_pos hp, @List.find?_cons_of_pos _ (fun p => p.1 == k) (k, v) _ (by simp)]
    · have hp' : (p.1 == k) = false := by simpa using hp
      have hany' : m'.any (fun p => p.1 == k) = true := by
        simpa [List.any_cons, hp'] using hany
      rw [if_neg hp, @List.find?_cons_of_neg _ (fun p => p.1 == k) p _ (by simp [hp']), ih hany']

lemma find?_mapSet_other (m : DamageTypeMap) (k : String) (v : List DamagePartialData)
    (k' : String) (hne : k' ≠ k) :
    List.find? (fun p => p.1 == k') (m.map fun p => if p.1 == k then (k, v) else p)
      = List.find? (fun p => p.1 == k') m := by
  induction m with
  | nil => rfl
  | cons p m' ih =>
    rw [List.map_cons]
    by_cases hp : (p.1 == k) = true
    · have hpk : p.1 = k := by simpa using hp
      have h1 : ¬((k : String) == k') = true := by simpa using fun h => hne h.symm
      have h2 : ¬(p.1 == k') = true := by
        rw [hpk]
        simpa using fun h => hne h.symm
      rw [if_pos hp, @List.find?_cons_of_neg _ (fun p => p.1 == k') (k, v) _ h1,
        @List.find?_cons_of_neg _ (fun p => p.1 == k') p _ h2, ih]
    · rw [if_neg hp]
      by_cases hq : (p.1 == k') = true
      · rw [@List.find?_cons_of_pos _ (fun p => p.1 == k') p _ hq,
          @List.find?_cons_of_pos _ (fun p => p.1 == k') p _ hq]
      · rw [@List.find?_cons_of_neg _ (fun p => p.1 == k') p _ hq,
          @List.find?_cons_of_neg _ (fun p => p.1 == k') p _ hq, ih]

lemma find?_mapSet_append (m : DamageTypeMap) (k : String) (v : List DamagePartialData)
    (k' : String) (hany : m.any (fun p => p.1 == k) = false) :
    List.find? (fun p => p.1 == k') (m ++ [(k, v)])
      = if k' = k then some (k, v) else List.find? (fun p => p.1 == k') m := by
  induction m with
  | nil =>
    by_cases h : k' = k
    · rw [if_pos h, List.nil_append,
        @List.find?_cons_of_pos _ (fun p => p.1 == k') (k, v) _ (by simp [h])]
    · rw [if_neg h, List.nil_append,
        @List.find?_cons_of_neg _ (fun p => p.1 == k') (k, v) _
          (by simpa using fun hh => h hh.symm)]
  | cons p m' ih =>
    have hp : (p.1 == k) = false := by
      by_contra hc
      have hc' : (p.1 == k) = true := by simpa using hc
      simp [List.any_cons, hc'] at hany
    have hany' : m'.any (fun p => p.1 == k) = false := by
      simpa [List.any_cons, hp] using hany
    rw [List.cons_append]
    by_cases hq : (p.1 == k') = true
    · have hkk : k' ≠ k := by
        intro he
        rw [he] at hq
        exact absurd hq (by simp [hp])
      rw [@List.find?_cons_of_pos _ (fun p => p.1 == k') p _ hq, if_neg hkk,
        @List.find?_cons_of_pos _ (fun p => p.1 == k') p _ hq]
    · rw [@List.find?_cons_of_neg _ (fun p => p.1 == k') p _ hq, ih hany']
      by_cases h : k' = k
      · rw [if_pos h, if_pos h]
      · rw [if_neg h, if_neg h, @List.find?_cons_of_neg _ (fun p => p.1 == k') p _ hq]

lemma mapGet_mapSet (m : DamageTypeMap) (k : String) (v : List DamagePartialData) (k' : String) :
    mapGet (mapSet m k v) k' = if k' = k then some v else mapGet m k' := by
  rw [mapGet, mapSet]
  by_cases hany : m.any (fun p => p.1 == k) = true
  · rw [if_pos hany]
    by_cases h : k' = k
    · subst h
      rw [find?_mapSet_same m k' v hany]
      simp
    · rw [find?_mapSet_other m k v k' h]
      simp [h, mapGet]
  · have hany' : m.any (fun p => p.1 == k) = false := Bool.eq_false_iff.mpr hany
    rw [if_neg (by simp [hany'])]
    rw [find?_mapSet_append m k v k' hany']
    by_cases h : k' = k
    · simp [h]
    · simp [h, mapGet]

lemma fiberOf_mapSet (m : DamageTypeMap) (k : String) (v : List DamagePartialData) (t : String) :
    fiberOf (mapSet m k v) t = if t = k then v else fiberOf m t := by
  rw [fiberOf, mapGet_mapSet]
  by_cases h : t = k <;> simp [h, fiberOf]

lemma fiberOf_pushPartial (m : DamageTypeMap) (t : String) (p : DamagePartialData) (t' : String) :
    fiberOf (pushPartial m t p) t' = if t' = t then fiberOf m t' ++ [p] else fiberOf m t' := by
  rw [pushPartial, fiberOf_mapSet]
  by_cases h : t' = t <;> simp [h]

lemma fiberOf_foldl_addDice (base : BaseDamage) (es : List DamageDicePF2e)
    (m : DamageTypeMap) (t : String) :
    fiberOf (es.foldl (addDiceEntry base) m) t = fiberOf m t ++ diceContribution base es t := by
  induction es generalizing m with
  | nil => simp [diceContribution]
  | cons e es' ih =>
    rw [List.foldl_cons]
    cases hres : diceEntryResolved base e with
    | none =>
      rw [show addDiceEntry base m e = m from by simp [addDiceEntry, hres]]
      rw [ih]
      have hcontrib : diceContribution base (e :: es') t = diceContribution base es' t := by
        simp [diceContribution, List.filterMap_cons, hres]
      rw [hcontrib]
    | some tp =>
      obtain ⟨t2, p⟩ := tp
      rw [show addDiceEntry base m e = pushPartial m t2 p from by simp [addDiceEntry, hres]]
      have hcontrib : diceContribution base (e :: es') t
          = (if (t2 == t) = true then [p] else []) ++ diceContribution base es' t := by
        by_cases hb : t2 = t
        · simp [diceContribution, List.filterMap_cons, hres, hb]
        · simp [diceContribution, List.filterMap_cons, hres, hb]
      rw [ih, fiberOf_pushPartial, hcontrib]
      by_cases h : t = t2
      · have hb : (t2 == t) = true := by simp [h]
        rw [if_pos h, if_pos hb, List.append_assoc]
      · have hb : ¬((t2 == t) = true) := by simpa using fun hh => h hh.symm
        rw [if_neg h, if_neg hb]
        simp

lemma fiberOf_foldl_addModifier (base : BaseDamage) (ms : List ModifierPF2e)
    (m : DamageTypeMap) (t : String) :
    fiberOf (ms.foldl (addModifierEntry base) m) t
      = fiberOf m t ++ modifierContribution base ms t := by
  induction ms generalizing m with
  | nil => simp [modifierContribution]
  | cons entry ms' ih =>
    rw [List.foldl_cons, show addModifierEntry base m entry
      = pushPartial m (entry.damageType.getD base.damageType) (modifierPartialData entry)
      from rfl]
    have hcontrib : modifierContribution base (entry :: ms') t
        = (if ((entry.damageType.getD base.damageType) == t) = true
            then [modifierPartialData entry] else [])
          ++ modifierContribution base ms' t := by
      by_cases hb : entry.damageType.getD base.damageType = t
      · simp [modifierContribution, List.filterMap_cons, hb]
      · simp [modifierContribution, List.filterMap_cons, hb]
    rw [ih, fiberOf_pushPartial, hcontrib]
    by_cases h : t = entry.damageType.getD base.damageType
    · have hb : ((entry.damageType.getD base.damageType) == t) = true := by simp [h]
      rw [if_pos h, if_pos hb, List.append_assoc]
    · have hb : ¬(((entry.damageType.getD base.damageType) == t) = true) := by
        simpa using fun hh => h hh.symm
      rw [if_neg h, if_neg hb]
      simp

lemma fiberOf_baseTypeMap (base : BaseDamage) (t : String) :
    fiberOf (baseTypeMap base) t = baseContribution base t := by
  rw [baseTypeMap, baseContribution]
  by_cases hc : ((base.diceNumber != 0 && base.dieSize.isSome) || base.modifier != 0) = true
  · rw [if_pos hc, fiberOf_mapSet]
    by_cases h : t = base.damageType
    · have hb : (base.damageType == t) = true := by simp [h]
      simp [hc, hb, h]
    · have hb : (base.damageType == t) = false := by simpa using fun hh => h hh.symm
      simp [hc, hb, h, fiberOf, mapGet]
  · have hc' : ((base.diceNumber != 0 && base.dieSize.isSome) || base.modifier != 0) = false := by
      simpa using hc
    simp [hc', fiberOf, mapGet]

/-- Characterization of the type map: its fiber at any damage type is the
base contribution, then the enabled dice contributions in order, then the
admitted modifier contributions in order. -/
lemma fiberOf_buildTypeMap (d : DamageFormulaData) (critical : Bool) (t : String) :
    fiberOf (buildTypeMap d critical) t
      = baseContribution d.base t
        ++ diceContribution d.base (d.dice.filter fun e => e.enabled) t
        ++ modifierContribution d.base (admittedModifiers d critical) t := by
  rw [buildTypeMap]
  rw [fiberOf_foldl_addModifier, fiberOf_foldl_addDice, fiberOf_baseTypeMap, List.append_assoc]

lemma diceEntryResolved_some (base : BaseDamage) (e : DamageDicePF2e) (t2 : String)
    (p2 : DamagePartialData) (h : diceEntryResolved base e = some (t2, p2)) :
    p2.critical = e.critical ∧ ∃ faces, p2.dice = some ⟨e.diceNumber, faces⟩ := by
  unfold diceEntryResolved at h
  dsimp only at h
  rcases hdie : (match e.dieSize with | some f => some f | none => base.dieSize) with _ | faces
  · rw [hdie] at h
    simp at h
  · rw [hdie] at h
    dsimp only at h
    split at h
    · have hp2 := congrArg Prod.snd (Option.some.inj h)
      dsimp only at hp2
      refine ⟨?_, faces, ?_⟩
      · rw [← hp2]
      · rw [← hp2]
    · exact absurd h (by simp)

lemma mem_admittedModifiers_critical (d : DamageFormulaData) (entry : ModifierPF2e)
    (h : entry ∈ admittedModifiers d false) : entry.critical ≠ some true := by
  rw [admittedModifiers] at h
  obtain ⟨m0, _, heq⟩ := List.mem_filterMap.mp h
  by_cases hc : ({ m0 with damageType := some (m0.damageType.getD d.base.damageType) :
      ModifierPF2e }.critical != some true) = true
  · rw [if_pos (by simp [hc])] at heq
    have := Option.some.inj heq
    rw [← this]
    simpa using hc
  · rw [if_neg (by simpa using hc)] at heq
    exact absurd heq (by simp)

/-- Claim C6: on non-critical outcomes no partial with the critical-only
flag and no dice pool (i.e. no modifier-derived partial with
criticalOnly = true) is in the type map — enabled critical-only modifiers
are dropped at partition time — while an enabled, resolvable dice entry
always enters the type map with its critical flag intact regardless of
outcome; dice are screened only later, by the criticalInclusion filter of
the category assembler. -/
theorem claim_C6 (d : DamageFormulaData) (degree : Nat)
    (h : degree ≠ DEGREE_OF_SUCCESS_CRITICAL_SUCCESS) :
    (∀ t p, p ∈ fiberOf (buildTypeMap d (degree == DEGREE_OF_SUCCESS_CRITICAL_SUCCESS)) t →
        p.dice = none → p.critical ≠ some true)
    ∧ (∀ e ∈ d.dice, e.enabled = true →
        ∀ t2 p2, diceEntryResolved d.base e = some (t2, p2) →
          p2 ∈ fiberOf (buildTypeMap d (degree == DEGREE_OF_SUCCESS_CRITICAL_SUCCESS)) t2
            ∧ p2.critical = e.critical)
    ∧ (∀ (groups : Option DamageCategoryUnique → List DamagePartialData)
        (incl : List (Option Bool)) (dd : Bool) (c : Option DamageCategoryUnique),
        categoryFragment groups incl dd c
          = categoryFragment (fun c2 => (groups c2).filter fun p => incl.contains p.critical)
              incl dd c) := by
  have hb : (degree == DEGREE_OF_SUCCESS_CRITICAL_SUCCESS) = false := by
    simpa using h
  refine ⟨fun t p hp hdice => ?_, fun e he henabled t2 p2 hres => ⟨?_, ?_⟩,
    fun groups incl dd c => ?_⟩
  · rw [fiberOf_buildTypeMap] at hp
    rcases List.mem_append.mp hp with hp' | hmod
    · rcases List.mem_append.mp hp' with hbase | hdic
      · rw [baseContribution] at hbase
        split at hbase
        · have : p = basePartialData d.base := by simpa using hbase
          rw [this, basePartialData]
          simp
        · simp at hbase
      · obtain ⟨e, _, heq⟩ := List.mem_filterMap.mp hdic
        cases hres : diceEntryResolved d.base e with
        | none => rw [hres] at heq; simp at heq
        | some tp =>
          obtain ⟨t2, p2⟩ := tp
          rw [hres] at heq
          dsimp only at heq
          have hp2 : p = p2 := by
            by_cases ht : (t2 == t) = true
            · rw [if_pos ht] at heq
              exact (Option.some.inj heq).symm
            · rw [if_neg ht] at heq
              exact absurd heq (by simp)
          obtain ⟨_, faces, hdice2⟩ := diceEntryResolved_some d.base e t2 p2 hres
          rw [hp2, hdice2] at hdice
          exact absurd hdice (by simp)
    · obtain ⟨entry, hentry, heq⟩ := List.mem_filterMap.mp hmod
      have hcrit : entry.critical ≠ some true := by
        rw [hb] at hentry
        exact mem_admittedModifiers_critical d entry hentry
      by_cases ht : ((entry.damageType.getD d.base.damageType) == t) = true
      · rw [if_pos ht] at heq
        have : p = modifierPartialData entry := (Option.some.inj heq).symm
        rw [this, modifierPartialData]
        simpa using hcrit
      · rw [if_neg ht] at heq
        exact absurd heq (by simp)
  · rw [fiberOf_buildTypeMap]
    refine List.mem_append.mpr (Or.inl (List.mem_append.mpr (Or.inr ?_)))
    refine List.mem_filterMap.mpr ⟨e, List.mem_filter.mpr ⟨he, by simp [henabled]⟩, ?_⟩
    rw [hres]
    simp
  · exact (diceEntryResolved_some d.base e t2 p2 hres).1
  · simp only [categoryFragment, List.filter_filter, Bool.and_self]

/-- The critical-only dice entry of `dC6`. -/
def eDeadly : DamageDicePF2e := ⟨"Deadly", 1, some 8, none, none, some true, true⟩

/-- The partial `eDeadly` resolves to. -/
def pDeadly : DamagePartialData :=
  { modifier := 0, dice := some ⟨1, 8⟩, label := "Deadly", category := none,
    critical := some true, materials := [] }

/-- Witness for claim C6: at the success outcome the enabled
critical-only dice entry of `dC6` still enters the fire fiber of the type
map, with its critical flag intact. -/
theorem claim_C6_witness :
    pDeadly ∈ fiberOf
        (buildTypeMap dC6 (DEGREE_OF_SUCCESS_SUCCESS == DEGREE_OF_SUCCESS_CRITICAL_SUCCESS))
        "fire"
      ∧ pDeadly.critical = eDeadly.critical :=
  (claim_C6 dC6 DEGREE_OF_SUCCESS_SUCCESS (by decide)).2.1
    eDeadly (by decide) (by decide) "fire" pDeadly (by decide)

lemma finalizeInstance_formula (fo : Option String) (bd : List String) (x : AssembledFormula)
    (h : finalizeInstance fo bd = some x) : x.formula ≠ "" := by
  unfold finalizeInstance at h
  split at h
  · rename_i f
    split at h
    · exact absurd h (by simp)
    · rename_i hne
      have hx := Option.some.inj h
      rw [← hx]
      intro hcon
      have hf : f = "" := hcon
      exact hne (by rw [hf]; rfl)
  · exact absurd h (by simp)

lemma instancesFromTypeMap_formula_ne (env : GameEnv) (tm : DamageTypeMap) (degree : Nat)
    (persistent : Bool) (x : AssembledFormula) (hx : x ∈ instancesFromTypeMap env tm degree persistent) :
    x.formula ≠ "" := by
  obtain ⟨entry, _, h⟩ := List.mem_filterMap.mp hx
  unfold instanceForType at h
  dsimp only at h
  split at h
  · exact absurd h (by simp)
  · exact finalizeInstance_formula _ _ x h


/-- The term language the compiler emits (amended claim C8), as an
inductive grammar over strings: `NdF` dice atoms, doubled dice atoms
`(2NdF[doubled])`, integer constants and their doubled form `2 * c`,
sums and differences joined with `" + "` / `" - "`, parenthesized
sub-expressions, `2 *` doubling of a whole sub-expression, and bracketed
comma-joined tag suffixes (used both for `[precision]`/`[splash]`
category tags and for the trailing flavor tag). -/
inductive TermExpr : String → Prop where
  | ndf (n : Int) (f : Nat) (hn : 0 < n) : TermExpr s!"{n}d{f}"
  | doubledDice (n : Int) (f : Nat) (hn : 0 < n) : TermExpr s!"({n}d{f}[doubled])"
  | intConst (k : Nat) : TermExpr s!"{k}"
  | doubledConst (k : Nat) : TermExpr s!"2 * {k}"
  | add (a b : String) : TermExpr a → TermExpr b → TermExpr (a ++ " + " ++ b)
  | sub (a b : String) : TermExpr a → TermExpr b → TermExpr (a ++ " - " ++ b)
  | paren (a : String) : TermExpr a → TermExpr ("(" ++ a ++ ")")
  | double (a : String) : TermExpr a → TermExpr ("2 * " ++ a)
  | tag (a : String) (tags : List String) : TermExpr a →
      TermExpr (a ++ "[" ++ String.intercalate "," tags ++ "]")

/-- Consume one or more digits. -/
def specDigits : List Char → Option (List Char)
  | c :: rest => if c.isDigit then some (rest.dropWhile Char.isDigit) else none
  | [] => none

/-- Consume `\d+(d\d+)?` — a bare integer or `NdF` atom. -/
def specNdF (l : List Char) : Option (List Char) :=
  match specDigits l with
  | some ('d' :: r2) =>
    match specDigits r2 with
    | some r3 => some r3
    | none => none
  | some r1 => some r1
  | none => none

/-- Consume `\d+d\d+` — an `NdF` token with both parts present. -/
def specNdFOnly (l : List Char) : Option (List Char) :=
  match specDigits l with
  | some ('d' :: r2) => specDigits r2
  | _ => none

/-- After an opening parenthesis: consume `NdF[doubled])`, the doubled
dice atom of the claimed grammar. -/
def specDoubled (l : List Char) : Option (List Char) :=
  match specNdFOnly l with
  | some ('[' :: 'd' :: 'o' :: 'u' :: 'b' :: 'l' :: 'e' :: 'd' :: ']' :: ')' :: r) => some r
  | _ => none

mutual
/-- Follows the spec words for claim C8: one atom of the claimed term
grammar — an integer constant, an `NdF` token, a `(NdF[doubled])` atom,
or a parenthesized sub-sum.  The fuel argument bounds recursion depth. -/
def specAtomS : Nat → List Char → Option (List Char)
  | 0, _ => none
  | fuel + 1, l =>
    match l with
    | '(' :: rest =>
      (match specDoubled rest with
       | some r => some r
       | none =>
         match specExprS fuel rest with
         | some (')' :: r2) => some r2
         | _ => none)
    | _ => specNdF l

/-- Follows the spec words for claim C8: an additive expression of the
claimed atoms (charitably also admitting `" - "` joins). -/
def specExprS : Nat → List Char → Option (List Char)
  | 0, _ => none
  | fuel + 1, l =>
    match specAtomS fuel l with
    | some rest => specTailS fuel rest
    | none => none

/-- The `(" + " atom)*` tail of the claimed additive expression
(charitably also `" - "`). -/
def specTailS : Nat → List Char → Option (List Char)
  | 0, l => some l
  | fuel + 1, l =>
    match l with
    | ' ' :: '+' :: ' ' :: rest =>
      (match specAtomS fuel rest with
       | some r => specTailS fuel r
       | none => none)
    | ' ' :: '-' :: ' ' :: rest =>
      (match specAtomS fuel rest with
       | some r => specTailS fuel r
       | none => none)
    | _ => some l
end

/-- Follows the spec words for claim C8: a term of the claimed grammar —
an additive expression of `NdF`, `(NdF[doubled])`, integer constants and
parenthesized sub-sums, optionally suffixed by one bracketed
comma-separated flavor tag (tag content charitably unrestricted except
for the closing bracket). -/
def specTermGrammar (s : String) : Bool :=
  match specExprS (s.length + 2) s.data with
  | some [] => true
  | some ('[' :: rest) =>
    (match rest.dropWhile (fun c => !(c == ']')) with
     | [']'] => !(rest.takeWhile (fun c => !(c == ']'))).isEmpty
     | _ => false)
  | _ => false

/-- The per-type instances a compilation produces (the list whose
formulas are comma-joined at formula.ts:112-117): the non-persistent
instances followed by the persistent ones, over the type map of the
gated definition. -/
def allInstances (env : GameEnv) (d : DamageFormulaData) (degree : Nat) :
    List AssembledFormula :=
  let damage := if degree == DEGREE_OF_SUCCESS_FAILURE then applySplashGate d else d
  let typeMap := buildTypeMap damage (degree == DEGREE_OF_SUCCESS_CRITICAL_SUCCESS)
  instancesFromTypeMap env typeMap degree false ++ instancesFromTypeMap env typeMap degree true

/-- A modifier-only base: flat 3 fire damage. -/
def dMod3 : DamageFormulaData := ⟨⟨0, none, 3, "fire", none, []⟩, [], []⟩

/-- Base 2d6 fire, a splash 1d4 fire dice entry, and a +3 fire modifier
(the worked example of the spec). -/
def dSplashMix : DamageFormulaData :=
  ⟨⟨2, some 6, 0, "fire", none, []⟩,
   [⟨"Splashy", 1, some 4, none, some .splash, none, true⟩],
   [⟨"Bonus", 3, none, none, none, true⟩]⟩

lemma intercalate_go_append (sep x : String) :
    ∀ (l : List String) (y : String),
      String.intercalate.go (x ++ y) sep l = x ++ String.intercalate.go y sep l := by
  intro l
  induction l with
  | nil => intro y; rfl
  | cons a as ih =>
    intro y
    show String.intercalate.go (x ++ y ++ sep ++ a) sep as
      = x ++ String.intercalate.go (y ++ sep ++ a) sep as
    rw [String.append_assoc x y sep, String.append_assoc x (y ++ sep) a]
    exact ih (y ++ sep ++ a)

lemma intercalate_cons_cons (sep a b : String) (l : List String) :
    String.intercalate sep (a :: b :: l) = a ++ sep ++ String.intercalate sep (b :: l) := by
  show String.intercalate.go a sep (b :: l) = a ++ sep ++ String.intercalate.go b sep l
  rw [show String.intercalate.go a sep (b :: l)
    = String.intercalate.go (a ++ sep ++ b) sep l from rfl]
  exact intercalate_go_append sep (a ++ sep) l b

lemma append_ne_empty_left (a b : String) (ha : a ≠ "") : a ++ b ≠ "" := by
  intro hcon
  apply ha
  have hd := congrArg String.data hcon
  rw [String.data_append] at hd
  exact String.ext (List.append_eq_nil.mp hd).1

lemma paren_wrap_ne_empty (l f : String) (hl : l ≠ "") : l ++ f ++ ")" ≠ "" :=
  append_ne_empty_left _ _ (append_ne_empty_left _ _ hl)

lemma TermExpr_intercalate_add (l : List String) (hne : l ≠ [])
    (h : ∀ s ∈ l, TermExpr s) : TermExpr (String.intercalate " + " l) := by
  induction l with
  | nil => exact absurd rfl hne
  | cons a as ih =>
    cases as with
    | nil => exact h a (by simp)
    | cons b bs =>
      rw [intercalate_cons_cons]
      exact TermExpr.add _ _ (h a (by simp))
        (ih (by simp) fun s hs => h s (by simp [hs]))

lemma intercalate_add_ne_empty (l : List String) (hne : l ≠ [])
    (h : ∀ s ∈ l, s ≠ "") : String.intercalate " + " l ≠ "" := by
  obtain ⟨a, as, rfl⟩ := List.exists_cons_of_ne_nil hne
  cases as with
  | nil => exact h a (by simp)
  | cons b bs =>
    rw [intercalate_cons_cons]
    exact append_ne_empty_left _ _ (append_ne_empty_left _ _ (h a (by simp)))

lemma TermExpr_renderDiceTerm (dd : Bool) (sp : DiceSpec) (h : 0 < sp.number) :
    TermExpr (renderDiceTerm dd sp) := by
  cases dd with
  | false => exact TermExpr.ndf sp.number sp.faces h
  | true => exact TermExpr.doubledDice (sp.number * 2) sp.faces (by omega)

lemma TermExpr_renderCombined (constant : Int) (pd : List DiceSpec) (dd : Bool)
    (hpd : ∀ sp ∈ pd, 0 < sp.number) :
    renderCombined constant pd dd = "" ∨ TermExpr (renderCombined constant pd dd) := by
  rw [renderCombined]
  have hconstT : TermExpr (if dd = true then s!"2 * {constant.natAbs}"
      else s!"{constant.natAbs}") := by
    cases dd with
    | true => exact TermExpr.doubledConst constant.natAbs
    | false => exact TermExpr.intConst constant.natAbs
  by_cases hde : (String.intercalate " + " (pd.map (renderDiceTerm dd))).isEmpty = true
  · rw [if_pos hde, List.nil_append]
    by_cases hc : (constant == 0) = true
    · rw [if_pos hc]
      exact Or.inl rfl
    · rw [if_neg hc]
      exact Or.inr hconstT
  · rw [if_neg hde]
    have hpdne : pd ≠ [] := by
      intro hcon
      apply hde
      rw [hcon]
      rfl
    have hdiceT : TermExpr (String.intercalate " + " (pd.map (renderDiceTerm dd))) := by
      apply TermExpr_intercalate_add
      · simpa using hpdne
      · intro s hs
        obtain ⟨sp, hsp, rfl⟩ := List.mem_map.mp hs
        exact TermExpr_renderDiceTerm dd sp (hpd sp hsp)
    by_cases hc : (constant == 0) = true
    · rw [if_pos hc, List.append_nil]
      exact Or.inr hdiceT
    · rw [if_neg hc]
      simp only [List.cons_append, List.nil_append]
      by_cases hpos : 0 < constant
      · rw [if_pos hpos, intercalate_cons_cons]
        exact Or.inr (TermExpr.add _ _ hdiceT hconstT)
      · rw [if_neg hpos, intercalate_cons_cons]
        exact Or.inr (TermExpr.sub _ _ hdiceT hconstT)

lemma TermExpr_combinePartialTerms (ts : List DamagePartialTerm) (dd : Bool) :
    combinePartialTerms ts dd = "" ∨ TermExpr (combinePartialTerms ts dd) := by
  rw [combinePartialTerms]
  apply TermExpr_renderCombined
  intro sp hsp
  exact of_decide_eq_true (List.mem_filter.mp hsp).2

lemma fragment_finish (flavored : String) (t : String)
    (hT : flavored ≠ "" → TermExpr flavored)
    (h : (if flavored.isEmpty then none else some flavored) = some t) :
    TermExpr t ∧ t ≠ "" := by
  split at h
  · exact absurd h (by simp)
  · rename_i hne
    obtain rfl : flavored = t := Option.some.inj h
    have hfne : flavored ≠ "" := by
      intro hcon
      apply hne
      rw [hcon]
      rfl
    exact ⟨hT hfne, hfne⟩

lemma TermExpr_categoryFragment (groups : Option DamageCategoryUnique → List DamagePartialData)
    (incl : List (Option Bool)) (dd : Bool) (c : Option DamageCategoryUnique) (t : String)
    (h : categoryFragment groups incl dd c = some t) : TermExpr t ∧ t ≠ "" := by
  rw [categoryFragment] at h
  have hcomb := TermExpr_combinePartialTerms
    (((groups c).filter fun p => incl.contains p.critical).map fun p => p.toDamagePartialTerm) dd
  by_cases hwrap : ((c == some DamageCategoryUnique.precision
      || c == some DamageCategoryUnique.splash)
      && hasOperators (some (combinePartialTerms
        (((groups c).filter fun p => incl.contains p.critical).map
          fun p => p.toDamagePartialTerm) dd))) = true
  · rw [if_pos hwrap] at h
    have hEop := ((Bool.and_eq_true _ _).mp hwrap).2
    have hEne : combinePartialTerms
        (((groups c).filter fun p => incl.contains p.critical).map
          fun p => p.toDamagePartialTerm) dd ≠ "" := by
      intro hcon
      rw [hcon] at hEop
      exact absurd hEop (by decide)
    have hTE := hcomb.resolve_left hEne
    have hTterm := TermExpr.paren _ hTE
    have htermne := paren_wrap_ne_empty "("
      (combinePartialTerms
        (((groups c).filter fun p => incl.contains p.critical).map
          fun p => p.toDamagePartialTerm) dd) (by decide)
    by_cases hflav : (!("(" ++ combinePartialTerms
        (((groups c).filter fun p => incl.contains p.critical).map
          fun p => p.toDamagePartialTerm) dd ++ ")").isEmpty
        && (c == some DamageCategoryUnique.precision
          || c == some DamageCategoryUnique.splash)) = true
    · rw [if_pos hflav] at h
      refine fragment_finish _ _ (fun _ => ?_) h
      exact TermExpr.tag _ [categoryFlavorName c] hTterm
    · rw [if_neg hflav] at h
      exact fragment_finish _ _ (fun _ => hTterm) h
  · rw [if_neg hwrap] at h
    by_cases hflav : (!(combinePartialTerms
        (((groups c).filter fun p => incl.contains p.critical).map
          fun p => p.toDamagePartialTerm) dd).isEmpty
        && (c == some DamageCategoryUnique.precision
          || c == some DamageCategoryUnique.splash)) = true
    · rw [if_pos hflav] at h
      have htermne : combinePartialTerms
          (((groups c).filter fun p => incl.contains p.critical).map
            fun p => p.toDamagePartialTerm) dd ≠ "" := by
        have h1 := ((Bool.and_eq_true _ _).mp hflav).1
        intro hcon
        rw [hcon] at h1
        exact absurd h1 (by decide)
      refine fragment_finish _ _ (fun _ => ?_) h
      exact TermExpr.tag _ [categoryFlavorName c] (hcomb.resolve_left htermne)
    · rw [if_neg hflav] at h
      exact fragment_finish _ _ (fun hne => hcomb.resolve_left hne) h

lemma TermExpr_mem_createPartialFormulas
    (groups : Option DamageCategoryUnique → List DamagePartialData)
    (incl : List (Option Bool)) (dd : Bool) (s : String)
    (hs : s ∈ createPartialFormulas groups incl dd) : TermExpr s ∧ s ≠ "" := by
  obtain ⟨c, _, hc⟩ := List.mem_filterMap.mp hs
  exact TermExpr_categoryFragment groups incl dd c s hc

lemma TermExpr_sumExpression (terms : List (Option String)) (double : Bool) (t : String)
    (hterms : ∀ s : String, some s ∈ terms → s ≠ "" → TermExpr s)
    (h : sumExpression terms double = some t) : TermExpr t ∧ t ≠ "" := by
  rw [sumExpression] at h
  split at h
  · exact absurd h (by simp)
  · rename_i hall
    have hallf : (terms.all fun t => (t.getD "").isEmpty) = false := Bool.eq_false_iff.mpr hall
    obtain ⟨o, ho, hpo⟩ := List.all_eq_false.mp hallf
    obtain ⟨s0, rfl⟩ : ∃ s, o = some s := by
      cases o with
      | none =>
        exfalso
        apply hpo
        rfl
      | some s => exact ⟨s, rfl⟩
    have hs0ne : s0 ≠ "" := by
      intro hcon
      apply hpo
      rw [hcon]
      rfl
    have hs0mem : s0 ∈ terms.filterMap fun t => t.bind fun s =>
        if s.isEmpty then none else some s := by
      refine List.mem_filterMap.mpr ⟨some s0, ho, ?_⟩
      simp [isEmpty_false_of_ne s0 hs0ne]
    have htne := List.ne_nil_of_mem hs0mem
    have helem : ∀ s ∈ (terms.filterMap fun t => t.bind fun s =>
        if s.isEmpty then none else some s), TermExpr s ∧ s ≠ "" := by
      intro s hs
      obtain ⟨o', ho', hb⟩ := List.mem_filterMap.mp hs
      cases o' with
      | none => simp at hb
      | some s' =>
        by_cases he : s'.isEmpty = true
        · rw [Option.some_bind, if_pos he] at hb
          exact absurd hb (by simp)
        · rw [Option.some_bind, if_neg he] at hb
          obtain rfl : s' = s := Option.some.inj hb
          have hne' : s' ≠ "" := by
            intro hcon
            apply he
            rw [hcon]
            rfl
          exact ⟨hterms s' ho' hne', hne'⟩
    have hsummedT := TermExpr_intercalate_add _ htne fun s hs => (helem s hs).1
    have hsummedne := intercalate_add_ne_empty _ htne fun s hs => (helem s hs).2
    have hx := Option.some.inj h
    rw [← hx]
    by_cases hd : double = true
    · subst hd
      rw [if_pos rfl, Bool.true_and]
      by_cases hop : hasOperators (some (String.intercalate " + "
          (terms.filterMap fun t => t.bind fun s =>
            if s.isEmpty then none else some s))) = true
      · rw [if_pos hop]
        exact ⟨TermExpr.double _ (TermExpr.paren _ hsummedT),
          append_ne_empty_left _ _ (by decide)⟩
      · rw [if_neg hop]
        exact ⟨TermExpr.double _ hsummedT, append_ne_empty_left _ _ (by decide)⟩
    · have hd' : double = false := Bool.eq_false_iff.mpr hd
      subst hd'
      rw [if_neg (by decide), Bool.false_and, if_neg (by decide)]
      exact ⟨hsummedT, hsummedne⟩

lemma TermExpr_attachFinish (e : String) (allFlavor : String) (bd : List String)
    (x : AssembledFormula) (hTe : TermExpr e) (hene : e ≠ "")
    (hflavT : ∀ a, TermExpr a → TermExpr (a ++ "[" ++ allFlavor ++ "]"))
    (h : finalizeInstance (attachFlavor (some e)
          (if !allFlavor.isEmpty then "[" ++ allFlavor ++ "]" else "")) bd = some x) :
    TermExpr x.formula ∧ x.formula ≠ "" := by
  by_cases hA : allFlavor.isEmpty = true
  · rw [if_neg (by simp [hA])] at h
    have hatt : attachFlavor (some e) "" = some e := by
      show (if (!e.isEmpty && !("" : String).isEmpty) = true then some (e ++ "") else some e)
        = some e
      rw [if_neg (by simp [show ("" : String).isEmpty = true from rfl])]
    rw [hatt] at h
    have hfin : finalizeInstance (some e) bd = some (AssembledFormula.mk e bd) := by
      show (if e.isEmpty = true then none else some (AssembledFormula.mk e bd))
        = some (AssembledFormula.mk e bd)
      rw [if_neg (by simp [isEmpty_false_of_ne e hene])]
    rw [hfin] at h
    obtain rfl : (⟨e, bd⟩ : AssembledFormula) = x := Option.some.inj h
    exact ⟨hTe, hene⟩
  · have hA' : allFlavor.isEmpty = false := Bool.eq_false_iff.mpr hA
    rw [if_pos (by simp [hA'])] at h
    have hflne : ("[" ++ allFlavor ++ "]") ≠ "" :=
      append_ne_empty_left _ _ (append_ne_empty_left _ _ (by decide))
    have hatt : attachFlavor (some e) ("[" ++ allFlavor ++ "]")
        = some (e ++ ("[" ++ allFlavor ++ "]")) := by
      show (if (!e.isEmpty && !("[" ++ allFlavor ++ "]").isEmpty) = true
        then some (e ++ ("[" ++ allFlavor ++ "]")) else some e) = _
      rw [if_pos (by simp [isEmpty_false_of_ne e hene, isEmpty_false_of_ne _ hflne])]
    rw [hatt] at h
    have hne2 : e ++ ("[" ++ allFlavor ++ "]") ≠ "" := append_ne_empty_left _ _ hene
    have hfin : finalizeInstance (some (e ++ ("[" ++ allFlavor ++ "]"))) bd
        = some (AssembledFormula.mk (e ++ ("[" ++ allFlavor ++ "]")) bd) := by
      show (if (e ++ ("[" ++ allFlavor ++ "]")).isEmpty = true then none
        else some (AssembledFormula.mk (e ++ ("[" ++ allFlavor ++ "]")) bd))
        = some (AssembledFormula.mk (e ++ ("[" ++ allFlavor ++ "]")) bd)
      rw [if_neg (by simp [isEmpty_false_of_ne _ hne2])]
    rw [hfin] at h
    obtain rfl : (⟨e ++ ("[" ++ allFlavor ++ "]"), bd⟩ : AssembledFormula) = x :=
      Option.some.inj h
    refine ⟨?_, hne2⟩
    have hTtag := hflavT e hTe
    have hassoc : e ++ "[" ++ allFlavor ++ "]" = e ++ ("[" ++ allFlavor ++ "]") := by
      simp [String.append_assoc]
    rw [hassoc] at hTtag
    exact hTtag

lemma TermExpr_finalizeChain (summed : Option String) (allFlavor : String) (bd : List String)
    (x : AssembledFormula)
    (hsum : ∀ s, summed = some s → TermExpr s ∧ s ≠ "")
    (hflavT : ∀ a, TermExpr a → TermExpr (a ++ "[" ++ allFlavor ++ "]"))
    (h : finalizeInstance (attachFlavor (ensureValidFormulaHead summed)
          (if !allFlavor.isEmpty then "[" ++ allFlavor ++ "]" else "")) bd = some x) :
    TermExpr x.formula ∧ x.formula ≠ "" := by
  cases hsummed : summed with
  | none =>
    rw [hsummed] at h
    exact absurd h (by simp [ensureValidFormulaHead, attachFlavor, finalizeInstance])
  | some f =>
    obtain ⟨hTf, hfne⟩ := hsum f hsummed
    rw [hsummed] at h
    have hval : ensureValidFormulaHead (some f)
        = if (isWrappedRegex f || isSimpleRegex f) = true then some f
          else some ("(" ++ f ++ ")") := by
      show (if f.isEmpty = true then none
        else if (isWrappedRegex f || isSimpleRegex f) = true then some f
        else some ("(" ++ f ++ ")")) = _
      rw [if_neg (by simp [isEmpty_false_of_ne f hfne])]
    rw [hval] at h
    by_cases hw : (isWrappedRegex f || isSimpleRegex f) = true
    · rw [if_pos hw] at h
      exact TermExpr_attachFinish f allFlavor bd x hTf hfne hflavT h
    · rw [if_neg hw] at h
      exact TermExpr_attachFinish _ allFlavor bd x (TermExpr.paren f hTf)
        (paren_wrap_ne_empty "(" f (by decide)) hflavT h

lemma TermExpr_nonCriticalDamageOf (env : GameEnv) (degree : Nat)
    (groups : Option DamageCategoryUnique → List DamagePartialData) (s : String)
    (h : nonCriticalDamageOf env degree groups = some s) : TermExpr s ∧ s ≠ "" := by
  rw [nonCriticalDamageOf] at h
  refine TermExpr_sumExpression _ _ _ ?_ h
  intro s' hs' _
  obtain ⟨a, ha, hEq⟩ := List.mem_map.mp hs'
  obtain rfl : a = s' := Option.some.inj hEq
  exact (TermExpr_mem_createPartialFormulas _ _ _ _ ha).1

lemma TermExpr_criticalDamageOf (degree : Nat)
    (groups : Option DamageCategoryUnique → List DamagePartialData) (s : String)
    (h : criticalDamageOf degree groups = some s) : TermExpr s ∧ s ≠ "" := by
  rw [criticalDamageOf] at h
  split at h
  · refine TermExpr_sumExpression _ _ _ ?_ h
    intro s' hs' _
    obtain ⟨a, ha, hEq⟩ := List.mem_map.mp hs'
    obtain rfl : a = s' := Option.some.inj hEq
    exact (TermExpr_mem_createPartialFormulas _ _ _ _ ha).1
  · exact absurd h (by simp)

lemma TermExpr_instanceForType (env : GameEnv) (degree : Nat) (persistent : Bool)
    (dt : String) (tps : List DamagePartialData) (x : AssembledFormula)
    (h : instanceForType env degree persistent dt tps = some x) :
    TermExpr x.formula ∧ x.formula ≠ "" := by
  rw [instanceForType] at h
  split at h
  · exact absurd h (by simp)
  · refine TermExpr_finalizeChain _ _ _ _ ?_ ?_ h
    · intro s hs
      refine TermExpr_sumExpression _ _ _ ?_ hs
      intro s' hs' _
      by_cases hdeg : (degree != 0) = true
      · rw [if_pos hdeg] at hs'
        rcases List.mem_cons.mp hs' with hEq | hs''
        · exact (TermExpr_nonCriticalDamageOf env degree _ s' hEq.symm).1
        · rcases List.mem_cons.mp hs'' with hEq | hnil
          · exact (TermExpr_criticalDamageOf degree _ s' hEq.symm).1
          · simp at hnil
      · rw [if_neg hdeg] at hs'
        rcases List.mem_cons.mp hs' with hEq | hnil
        · exact (TermExpr_nonCriticalDamageOf env degree _ s' hEq.symm).1
        · simp at hnil
    · intro a hA
      exact TermExpr.tag a _ hA

/-- Claim C8 (amended): for every definition and non-critical-failure
outcome the returned formula is an opening brace, the comma-join of the
formulas of the surviving per-type instances (`allInstances`), and a
closing brace, with the breakdown the concatenation of those instances'
breakdowns; every surviving instance formula is nonempty and belongs to
the term grammar `TermExpr` — sums and differences of `NdF` atoms,
`(2NdF[doubled])` atoms, integer constants (doubled to `2 * c` in
dice-doubling mode), parenthesized sub-expressions, `2 *` subtotal
doubling, category tags and one trailing flavor tag.  The instance list
may be empty, in which case the formula is the two-character braces-only
string with zero terms. -/
theorem claim_C8 (env : GameEnv) (d : DamageFormulaData) (degree : Nat)
    (h : degree ≠ DEGREE_OF_SUCCESS_CRITICAL_FAILURE) :
    createDamageFormula env d degree
        = some ⟨"\x7b" ++ String.intercalate ","
              ((allInstances env d degree).map fun i => i.formula) ++ "\x7d",
            ((allInstances env d degree).map fun i => i.breakdown).flatten⟩
      ∧ ∀ x ∈ allInstances env d degree, x.formula ≠ "" ∧ TermExpr x.formula := by
  constructor
  · have hb : (degree == DEGREE_OF_SUCCESS_CRITICAL_FAILURE) = false := by simpa using h
    rw [createDamageFormula, if_neg (by simp [hb]), allInstances]
  · intro x hx
    rw [allInstances] at hx
    have hmem : ∃ tm ps, x ∈ instancesFromTypeMap env tm degree ps := by
      rcases List.mem_append.mp hx with h1 | h1
      · exact ⟨_, _, h1⟩
      · exact ⟨_, _, h1⟩
    obtain ⟨tm, ps, h1⟩ := hmem
    obtain ⟨entry, _, he⟩ := List.mem_filterMap.mp h1
    have hT := TermExpr_instanceForType env degree ps entry.1 entry.2 x he
    exact ⟨hT.2, hT.1⟩

/-- Counterexample for claim C8 as stated.  First, the empty damage
definition compiles (at success) to the formula holding zero terms
between the braces, which the grammar with at least one term does not
generate.  Second, two reachable terms fall outside the claimed
additive-expression grammar (`specTermGrammar`, a charitable parser for
it): subtotal doubling of a flat modifier produces the multiplicative
`(2 * 3)[fire]`, and a splash entry produces the mid-expression category
tag in `(2d6 + 3 + 1d4[splash])[fire]`. -/
theorem claim_C8_counterexample :
    (createDamageFormula env0 dEmpty DEGREE_OF_SUCCESS_SUCCESS = some ⟨"\x7b\x7d", []⟩
      ∧ specPooledHasTerm "\x7b\x7d" = false)
    ∧ ((createDamageFormula env0 dMod3 DEGREE_OF_SUCCESS_CRITICAL_SUCCESS).map
          (fun a => a.formula) = some "\x7b(2 * 3)[fire]\x7d"
        ∧ specTermGrammar "(2 * 3)[fire]" = false)
    ∧ ((createDamageFormula env0 dSplashMix DEGREE_OF_SUCCESS_SUCCESS).map
          (fun a => a.formula) = some "\x7b(2d6 + 3 + 1d4[splash])[fire]\x7d"
        ∧ specTermGrammar "(2d6 + 3 + 1d4[splash])[fire]" = false) :=
  ⟨⟨by decide, by decide⟩, ⟨by decide, by decide⟩, ⟨by decide, by decide⟩⟩

/-- Witness for claim C8: a concrete nonempty definition produces the
braced comma-join of its surviving instance formulas, each nonempty and
inside the term grammar. -/
theorem claim_C8_witness :
    createDamageFormula env0 dW8 DEGREE_OF_SUCCESS_SUCCESS
        = some ⟨"\x7b" ++ String.intercalate ","
              ((allInstances env0 dW8 DEGREE_OF_SUCCESS_SUCCESS).map fun i => i.formula)
              ++ "\x7d",
            ((allInstances env0 dW8 DEGREE_OF_SUCCESS_SUCCESS).map fun i => i.breakdown).flatten⟩
      ∧ ∀ x ∈ allInstances env0 dW8 DEGREE_OF_SUCCESS_SUCCESS,
          x.formula ≠ "" ∧ TermExpr x.formula :=
  claim_C8 env0 dW8 DEGREE_OF_SUCCESS_SUCCESS (by decide)
